import Mathlib

/-!
# Shallow embedding of the ThingModel live-state layer

This file embeds `src/static/js/models/thing-model.js` (the `ThingModel`
class of the gateway front end) in Lean 4 and proves the spec's claims
about it.  JavaScript objects are modelled as insertion-ordered
association lists with string keys, which is exactly the iteration and
update order `for (const k in obj)` and `obj[k] = v` give for the
non-numeric keys this code uses.  The event-emitter base class
(`models/model.js`) is not part of the sources; the few behaviours of it
that claims rely on (handler registration, clearing registrations on
cleanup) are modelled from the spec and marked as such.
-/

/-- A JavaScript value as this code manipulates them: `undefined`, `null`,
`NaN`, booleans, finite numbers (modelled as rationals), strings, and
plain objects. -/
inductive JSVal where
  | undef
  | vnull
  | nan
  | bool (b : Bool)
  | num (q : ℚ)
  | str (s : String)
  | obj (fields : List (String × JSVal))

/-- A JavaScript object: an insertion-ordered list of key/value pairs. -/
abbrev Obj := List (String × JSVal)

/-- `obj[k]` — first (and in a real JS object: only) binding of key `k`. -/
def getKey {α : Type} : List (String × α) → String → Option α
  | [], _ => none
  | (k', v) :: t, k => if k' = k then some v else getKey t k

/-- `obj[k] = v` — update the existing binding in place, or append a new
binding at the end, matching JS property insertion order. -/
def setKey {α : Type} : List (String × α) → String → α → List (String × α)
  | [], k, v => [(k, v)]
  | (k', v') :: t, k, v =>
    if k' = k then (k, v) :: t else (k', v') :: setKey t k v

/-- `obj.hasOwnProperty(k)`. -/
def hasKey {α : Type} (l : List (String × α)) (k : String) : Bool :=
  (getKey l k).isSome

/-- The keys of an object, in iteration order. -/
def keysOf {α : Type} (l : List (String × α)) : List String :=
  l.map Prod.fst

/-- Value of a decimal digit character. -/
def digitVal (c : Char) : ℕ := c.toNat - 48

/-- Natural number denoted by a list of decimal digit characters. -/
def natOfDigits (ds : List Char) : ℕ :=
  ds.foldl (fun n c => 10 * n + digitVal c) 0

/-- Model of the JS `parseFloat` builtin on the plain decimal literals this
code feeds it: skip leading spaces, optional sign, integer digits,
optional fraction digits; `none` (i.e. `NaN`) when no digit is found.
Exponent and hexadecimal forms are not modelled — the code never produces
them. -/
def parseFloatQ (s : String) : Option ℚ :=
  let cs := s.toList.dropWhile (fun c => c = ' ')
  let sign : ℤ := match cs with
    | '-' :: _ => -1
    | _ => 1
  let cs1 := match cs with
    | '-' :: t => t
    | '+' :: t => t
    | _ => cs
  let intDs := cs1.takeWhile Char.isDigit
  let rest := cs1.dropWhile Char.isDigit
  let fracDs := match rest with
    | '.' :: t => t.takeWhile Char.isDigit
    | _ => []
  if intDs.isEmpty && fracDs.isEmpty then none
  else
    some (mkRat
      (sign * ((natOfDigits intDs : ℤ) * 10 ^ fracDs.length + (natOfDigits fracDs : ℤ)))
      (10 ^ fracDs.length))

/-- Model of the JS `parseInt` builtin (radix 10) on plain decimal
literals: skip leading spaces, optional sign, then the longest digit
span; `none` (`NaN`) when no digit is found. -/
def parseIntZ (s : String) : Option ℤ :=
  let cs := s.toList.dropWhile (fun c => c = ' ')
  let sign : ℤ := match cs with
    | '-' :: _ => -1
    | _ => 1
  let cs1 := match cs with
    | '-' :: t => t
    | '+' :: t => t
    | _ => cs
  let intDs := cs1.takeWhile Char.isDigit
  if intDs.isEmpty then none
  else some (sign * (natOfDigits intDs : ℤ))

/-- Truncation of a rational toward zero, as `parseInt(String(x))`
performs on a finite decimal number. -/
def truncQ (q : ℚ) : ℤ := q.num.tdiv q.den

/-- `parseFloat(value)`: the value is converted to a string first; a
finite number round-trips through its decimal printout, everything
non-numeric parses to `NaN`. -/
def parseFloatVal : JSVal → JSVal
  | .num q => .num q
  | .str s =>
    match parseFloatQ s with
    | some q => .num q
    | none => .nan
  | _ => .nan

/-- `parseInt(value)`: the value is converted to a string first; a finite
number is truncated toward zero (the digits before the decimal point),
everything non-numeric parses to `NaN`. -/
def parseIntVal : JSVal → JSVal
  | .num q => .num (truncQ q)
  | .str s =>
    match parseIntZ s with
    | some z => .num (z : ℚ)
    | none => .nan
  | _ => .nan

/-- `Boolean(value)` — JS truthiness. -/
def truthy : JSVal → Bool
  | .undef => false
  | .vnull => false
  | .nan => false
  | .bool b => b
  | .num q => decide (q ≠ 0)
  | .str s => decide (s ≠ "")
  | .obj _ => true

/-- The fields of a property descriptor that `setProperty` reads:
`descriptor.type` (absent when the description omits it) and
`descriptor.href`. -/
structure Property where
  type : Option String
  href : String
deriving DecidableEq

/-- The event kinds the model emits, plus the arbitrary strings the
permissive `subscribe` accepts. -/
inductive EventKind where
  | propertyStatus
  | eventOccurred
  | other (name : String)
deriving DecidableEq

/-- One `handleEvent` call: the kind and the payload object handed to the
subscribers. -/
abbrev Emission := EventKind × Obj

/-- The state of one `ThingModel` instance.  `ws` is the websocket:
`none` when never created (no `href` in the description), `some true`
while open, `some false` once closed.  Subscribers are registered
handlers, identified by number. -/
structure ThingModel where
  name : String
  type : String
  href : Option String
  eventsHref : Option String
  propertyDescriptions : List (String × Property)
  eventDescriptions : List (String × JSVal)
  properties : Obj
  events : List Obj
  ws : Option Bool
  subscribers : List (EventKind × ℕ)

/-- The device description document the constructor receives. -/
structure Description where
  name : String
  type : String
  href : Option String
  links : List (String × String)
  properties : List (String × Property)
  events : List (String × JSVal)

/-- The `ThingModel` constructor together with `initWebsocket`: copy the
schemas from the description, start with an empty property cache and
event list, resolve the events link, and create the websocket only when
the description has an `href` (`initWebsocket` returns early otherwise).
The two initial fetches it kicks off are asynchronous and modelled by
`applyUpdatePropertiesResponses` and `updateEventsApply` below. -/
def constructThing (desc : Description) : ThingModel :=
  { name := desc.name
    type := desc.type
    href := desc.href
    eventsHref := (desc.links.find? (fun l => l.1 == "events")).map Prod.snd
    propertyDescriptions := desc.properties
    eventDescriptions := desc.events
    properties := []
    events := []
    ws := if desc.href.isSome then some true else none
    subscribers := [] }

/-- `value === undefined || value === null` — the values `onPropertyStatus`
skips. -/
def goodVal : JSVal → Bool
  | .undef => false
  | .vnull => false
  | _ => true

/-- The loop of `onPropertyStatus`: fold the incoming map into the cache,
skipping keys absent from the schema and undefined/null values. -/
def statusFold (schema : List (String × Property)) : Obj → Obj → Obj
  | props, [] => props
  | props, (k, v) :: rest =>
    if hasKey schema k && goodVal v then
      statusFold schema (setKey props k v) rest
    else
      statusFold schema props rest

/-- `onPropertyStatus(data)`: reconcile the incoming map into
`properties`, then call `handleEvent(PROPERTY_STATUS, this.properties)`
once with the whole cache. -/
def onPropertyStatus (m : ThingModel) (data : Obj) : ThingModel × List Emission :=
  let props := statusFold m.propertyDescriptions m.properties data
  ({ m with properties := props }, [(EventKind.propertyStatus, props)])

/-- The loop of `onEvent`: collect the schema-known entries into the
delta object and push one `{[event]: data}` record per entry. -/
def eventFold (schema : List (String × JSVal)) : Obj → Obj × List Obj → Obj × List Obj
  | [], acc => acc
  | (k, v) :: rest, (delta, pushed) =>
    if hasKey schema k then
      eventFold schema rest (setKey delta k v, pushed ++ [[(k, v)]])
    else
      eventFold schema rest (delta, pushed)

/-- `onEvent(data)`: append the schema-known entries to `events` and call
`handleEvent(EVENT_OCCURRED, events)` once with only the delta. -/
def onEvent (m : ThingModel) (data : Obj) : ThingModel × List Emission :=
  let r := eventFold m.eventDescriptions data ([], [])
  ({ m with events := m.events ++ r.2 }, [(EventKind.eventOccurred, r.1)])

/-- The result of a `setProperty` call up to its network effect: either a
synchronously rejected promise, or a `PUT` of a payload to the property's
href. -/
inductive SetPropertyCall where
  | rejected (msg : String)
  | putRequest (href : String) (payload : Obj)

/-- How many network requests a `setProperty` call issues. -/
def networkCalls : SetPropertyCall → ℕ
  | .rejected _ => 0
  | .putRequest _ _ => 1

/-- The `switch (this.propertyDescriptions[name].type)` coercion of
`setProperty`. -/
def coerceValue (ty : Option String) (v : JSVal) : JSVal :=
  if ty = some "number" then parseFloatVal v
  else if ty = some "integer" then parseIntVal v
  else if ty = some "boolean" then JSVal.bool (truthy v)
  else v

/-- `setProperty(name, value)`: reject without any request when `name` is
not a schema property, otherwise coerce the value by the declared type
and `PUT` the single-entry payload to the property's href. -/
def setProperty (m : ThingModel) (name : String) (value : JSVal) : SetPropertyCall :=
  match getKey m.propertyDescriptions name with
  | none => .rejected ("Unavailable property name " ++ name)
  | some property =>
    .putRequest property.href [(name, coerceValue property.type value)]

/-- On success `setProperty` folds the echoed response into the cache
through the standard reconciliation routine. -/
def applySetPropertyResponse (m : ThingModel) (json : Obj) : ThingModel × List Emission :=
  onPropertyStatus m json

/-- `Object.assign(target, source)` restricted to own enumerable fields. -/
def objAssign (target source : Obj) : Obj :=
  source.foldl (fun acc kv => setKey acc kv.1 kv.2) target

/-- The merge step of `updateProperties`: fold every per-property response
into one map. -/
def mergeResponses (responses : List Obj) : Obj :=
  responses.foldl objAssign []

/-- The completion of `updateProperties`: once all per-property reads are
in, merge them and reconcile the merged map in one shot. -/
def applyUpdatePropertiesResponses (m : ThingModel) (responses : List Obj) :
    ThingModel × List Emission :=
  onPropertyStatus m (mergeResponses responses)

/-- The completion of `updateEvents`: `this.events = events` — the
in-memory list is replaced wholesale by the parsed response. -/
def updateEventsApply (m : ThingModel) (response : List Obj) : ThingModel :=
  { m with events := response }

/-- `cleanup()`: `this.ws.close(); super.cleanup();`.  When the model was
built without an `href` there is no websocket and `this.ws.close()`
throws (`none`); otherwise the socket is closed and — modelled from the
spec: `models/model.js` is not among the sources, and §4.1 says the base
`cleanup()` clears all registrations — the subscribers are released. -/
def cleanup (m : ThingModel) : Option ThingModel :=
  match m.ws with
  | none => none
  | some _ => some { m with ws := some false, subscribers := [] }

/-- What the remote `DELETE` of `removeThing` came back with: a response
with its `ok` flag and `statusText`, or a transport failure. -/
inductive FetchOutcome where
  | response (ok : Bool) (statusText : String)
  | failure (error : String)

/-- How a `removeThing` promise settles. -/
inductive RemoveResult where
  | resolved
  | rejected (msg : String)

/-- The request `removeThing` issues: a `DELETE` of the device resource. -/
def removeRequest (m : ThingModel) : String × Option String :=
  ("DELETE", m.href)

/-- `removeThing()` after its `DELETE` settles: on `response.ok` run
`cleanup()` and resolve; on a non-ok response reject with the status text
and touch nothing; on a transport error reject with a fixed message and
touch nothing. -/
def removeThing (m : ThingModel) (o : FetchOutcome) : Option (ThingModel × RemoveResult) :=
  match o with
  | .response true _ => (cleanup m).map (fun m' => (m', RemoveResult.resolved))
  | .response false st => some (m, .rejected ("Failed removing thing " ++ st))
  | .failure _ => some (m, .rejected "Error occurred while removing thing")

/-- `subscribe(event, handler)`: register the handler — modelled from the
spec: the base-class `subscribe` of `models/model.js` is not among the
sources, and §4.1 says it records the (kind, handler) pair — then invoke
it immediately with the whole property cache when the kind is
PROPERTY_STATUS, and not at all otherwise.  The second component lists
the synchronous handler invocations the call performs. -/
def subscribe (m : ThingModel) (kind : EventKind) (h : ℕ) : ThingModel × List (ℕ × Obj) :=
  let m' := { m with subscribers := m.subscribers ++ [(kind, h)] }
  match kind with
  | EventKind.propertyStatus => (m', [(h, m.properties)])
  | EventKind.eventOccurred => (m', [])
  | EventKind.other _ => (m', [])

/-! ## Association-list lemmas -/

section AssocLemmas

variable {α : Type}

theorem getKey_setKey_self (p : List (String × α)) (k : String) (v : α) :
    getKey (setKey p k v) k = some v := by
  induction p with
  | nil => simp [setKey, getKey]
  | cons hd t ih =>
    obtain ⟨k', v'⟩ := hd
    by_cases h : k' = k
    · simp [setKey, h, getKey]
    · simp [setKey, h, getKey, ih]

theorem getKey_setKey_ne (p : List (String × α)) (k j : String) (v : α)
    (h : k ≠ j) : getKey (setKey p k v) j = getKey p j := by
  induction p with
  | nil => simp [setKey, getKey, h]
  | cons hd t ih =>
    obtain ⟨k', v'⟩ := hd
    by_cases hk : k' = k
    · subst hk
      simp [setKey, getKey, h]
    · simp [setKey, hk, getKey, ih]

theorem setKey_of_getKey_eq (p : List (String × α)) (k : String) (v : α)
    (h : getKey p k = some v) : setKey p k v = p := by
  induction p with
  | nil => simp [getKey] at h
  | cons hd t ih =>
    obtain ⟨k', v'⟩ := hd
    by_cases hk : k' = k
    · subst hk
      simp [getKey] at h
      simp [setKey, h]
    · simp [getKey, hk] at h
      simp [setKey, hk, ih h]

theorem setKey_setKey_same (p : List (String × α)) (k : String) (v w : α) :
    setKey (setKey p k v) k w = setKey p k w := by
  induction p with
  | nil => simp [setKey]
  | cons hd t ih =>
    obtain ⟨k', v'⟩ := hd
    by_cases hk : k' = k
    · simp [setKey, hk]
    · simp [setKey, hk, ih]

theorem mem_keysOf_setKey (p : List (String × α)) (k j : String) (v : α) :
    j ∈ keysOf (setKey p k v) ↔ j = k ∨ j ∈ keysOf p := by
  induction p with
  | nil => simp [setKey, keysOf]
  | cons hd t ih =>
    obtain ⟨k', v'⟩ := hd
    by_cases hk : k' = k
    · subst hk
      simp [setKey, keysOf]
    · simp [setKey, hk, keysOf] at ih ⊢
      tauto

theorem hasKey_iff_mem (p : List (String × α)) (k : String) :
    hasKey p k = true ↔ k ∈ keysOf p := by
  induction p with
  | nil => simp [hasKey, getKey, keysOf]
  | cons hd t ih =>
    obtain ⟨k', v'⟩ := hd
    by_cases hk : k' = k
    · simp [hasKey, getKey, hk, keysOf]
    · simp [hasKey, getKey, hk, keysOf, Option.isSome] at ih ⊢
      constructor
      · intro h
        exact Or.inr (ih.mp h)
      · rintro (h | h)
        · exact absurd h.symm hk
        · exact ih.mpr h

theorem setKey_append_of_not_mem (p : List (String × α)) (k : String) (v : α)
    (h : k ∉ keysOf p) : setKey p k v = p ++ [(k, v)] := by
  induction p with
  | nil => simp [setKey]
  | cons hd t ih =>
    obtain ⟨k', v'⟩ := hd
    simp [keysOf] at h
    push_neg at h
    simp [setKey, Ne.symm h.1, ih (by simpa [keysOf] using h.2)]

theorem setKey_comm_of_mem (p : List (String × α)) (k j : String) (v u : α)
    (hk : k ∈ keysOf p) (hne : j ≠ k) :
    setKey (setKey p k v) j u = setKey (setKey p j u) k v := by
  induction p with
  | nil => simp [keysOf] at hk
  | cons hd t ih =>
    obtain ⟨k', v'⟩ := hd
    simp [keysOf] at hk
    by_cases h1 : k' = k
    · subst h1
      simp [setKey, Ne.symm hne, hne]
    · rcases hk with hk | hk
      · exact absurd hk.symm h1
      · by_cases h2 : k' = j
        · subst h2
          simp [setKey, h1, hne]
        · simp [setKey, h1, h2, ih (by simpa [keysOf] using hk)]

end AssocLemmas

/-! ## Folding a list of updates into an object -/

/-- Apply a list of key/value updates to an object, left to right. -/
def applyEntries {α : Type} : List (String × α) → List (String × α) → List (String × α)
  | p, [] => p
  | p, (k, v) :: t => applyEntries (setKey p k v) t

section ApplyEntries

variable {α : Type}

theorem mem_keysOf_applyEntries_of_mem (l : List (String × α)) :
    ∀ p : List (String × α), ∀ j, j ∈ keysOf p → j ∈ keysOf (applyEntries p l) := by
  induction l with
  | nil => intro p j h; simpa [applyEntries] using h
  | cons hd t ih =>
    obtain ⟨k, v⟩ := hd
    intro p j h
    exact ih _ _ ((mem_keysOf_setKey p k j v).mpr (Or.inr h))

theorem getKey_applyEntries_of_not_mem (l : List (String × α)) :
    ∀ p : List (String × α), ∀ j, j ∉ keysOf l →
      getKey (applyEntries p l) j = getKey p j := by
  induction l with
  | nil => intro p j _; simp [applyEntries]
  | cons hd t ih =>
    obtain ⟨k, v⟩ := hd
    intro p j h
    simp [keysOf] at h
    push_neg at h
    rw [applyEntries, ih _ _ (by simpa [keysOf] using h.2),
      getKey_setKey_ne _ _ _ _ (Ne.symm h.1)]

theorem applyEntries_setKey_of_mem (l : List (String × α)) :
    ∀ p : List (String × α), ∀ k v, k ∈ keysOf p → k ∈ keysOf l →
      applyEntries (setKey p k v) l = applyEntries p l := by
  induction l with
  | nil => intro p k v _ h; simp [keysOf] at h
  | cons hd t ih =>
    obtain ⟨k', v'⟩ := hd
    intro p k v hp hl
    by_cases hk : k' = k
    · subst hk
      rw [applyEntries, setKey_setKey_same, applyEntries]
    · simp [keysOf, Ne.symm hk] at hl
      rw [applyEntries, setKey_comm_of_mem p k k' v v' hp hk, applyEntries,
        ih _ _ _ ((mem_keysOf_setKey p k' k v').mpr (Or.inr hp))
          (by simpa [keysOf] using hl)]

theorem applyEntries_idem (l : List (String × α)) :
    ∀ p : List (String × α), applyEntries (applyEntries p l) l = applyEntries p l := by
  induction l with
  | nil => intro p; simp [applyEntries]
  | cons hd t ih =>
    obtain ⟨k, v⟩ := hd
    intro p
    rw [applyEntries, applyEntries]
    by_cases hk : k ∈ keysOf t
    · rw [applyEntries_setKey_of_mem t _ k v
        (mem_keysOf_applyEntries_of_mem t (setKey p k v) k
          ((mem_keysOf_setKey p k k v).mpr (Or.inl rfl))) hk]
      exact ih (setKey p k v)
    · rw [setKey_of_getKey_eq _ _ _ (by
        rw [getKey_applyEntries_of_not_mem t _ _ hk, getKey_setKey_self])]
      exact ih (setKey p k v)

theorem getKey_applyEntries_of_mem_nodup (l : List (String × α)) :
    ∀ p : List (String × α), ∀ k v, (keysOf l).Nodup → (k, v) ∈ l →
      getKey (applyEntries p l) k = some v := by
  induction l with
  | nil => intro p k v _ h; simp at h
  | cons hd t ih =>
    obtain ⟨k', v'⟩ := hd
    intro p k v hnd hm
    simp [keysOf] at hnd
    rcases List.mem_cons.mp hm with h | h
    · obtain ⟨h1, h2⟩ := Prod.mk.injEq .. ▸ h
      rcases h
      rw [applyEntries,
        getKey_applyEntries_of_not_mem t _ _ (by simpa [keysOf] using hnd.1),
        getKey_setKey_self]
    · exact ih _ _ _ hnd.2 h

theorem mem_keysOf_applyEntries (l : List (String × α)) :
    ∀ p : List (String × α), ∀ j, j ∈ keysOf (applyEntries p l) →
      j ∈ keysOf p ∨ j ∈ keysOf l := by
  induction l with
  | nil => intro p j h; simp [applyEntries] at h; exact Or.inl h
  | cons hd t ih =>
    obtain ⟨k, v⟩ := hd
    intro p j h
    rcases ih _ _ h with h' | h'
    · rcases (mem_keysOf_setKey p k j v).mp h' with h'' | h''
      · exact Or.inr (by simp [keysOf, h''])
      · exact Or.inl h''
    · exact Or.inr (by simp [keysOf] at h' ⊢; exact Or.inr h')

end ApplyEntries

/-! ## Characterizing the reconciliation loop -/

/-- An entry of an incoming status map that `onPropertyStatus` folds in:
its key is in the schema and its value is neither undefined nor null. -/
def goodEntry (schema : List (String × Property)) (kv : String × JSVal) : Bool :=
  hasKey schema kv.1 && goodVal kv.2

theorem goodVal_iff (v : JSVal) :
    goodVal v = true ↔ v ≠ JSVal.undef ∧ v ≠ JSVal.vnull := by
  cases v <;> simp [goodVal]

theorem statusFold_eq_applyEntries (schema : List (String × Property)) (data : Obj) :
    ∀ props : Obj,
      statusFold schema props data = applyEntries props (data.filter (goodEntry schema)) := by
  induction data with
  | nil => intro props; simp [statusFold, applyEntries]
  | cons hd t ih =>
    obtain ⟨k, v⟩ := hd
    intro props
    by_cases h : goodEntry schema (k, v) = true
    · rw [statusFold, if_pos (by simpa [goodEntry] using h),
        List.filter_cons_of_pos h, applyEntries, ih]
    · rw [statusFold, if_neg (by simpa [goodEntry] using h),
        List.filter_cons_of_neg (by simpa using h), ih]

theorem keysOf_filter_nodup {α : Type} (p : String × α → Bool)
    (l : List (String × α)) (h : (keysOf l).Nodup) :
    (keysOf (l.filter p)).Nodup :=
  h.sublist (List.Sublist.map Prod.fst (List.filter_sublist l))

/-! ## Sample fixtures for witnesses -/

/-- A two-property schema, as in the spec's scenarios. -/
def sampleSchema : List (String × Property) :=
  [("level", { type := some "number", href := "/things/lamp/properties/level" }),
   ("on", { type := some "boolean", href := "/things/lamp/properties/on" })]

/-- A lamp model with one cached property and one schema event. -/
def sampleModel : ThingModel :=
  { name := "lamp"
    type := "onOffLight"
    href := some "/things/lamp"
    eventsHref := some "/things/lamp/events"
    propertyDescriptions := sampleSchema
    eventDescriptions := [("overheated", JSVal.obj [])]
    properties := [("on", JSVal.bool true)]
    events := []
    ws := some true
    subscribers := [] }

/-- An incoming status map: one schema key with a real value, one unknown
key, and one schema key with a null value. -/
def sampleStatus : Obj :=
  [("level", JSVal.num (mkRat 42 1)), ("extra", JSVal.num (mkRat 1 1)),
   ("on", JSVal.vnull)]

/-! ## C1 — reconciliation of an incoming status map -/

/-- C1: for an incoming status map, every key present in the schema whose
value is neither undefined nor null ends up overwritten in `properties`;
every key with no such entry keeps its previous cached value; and exactly
one PROPERTY_STATUS emission is made, carrying the entire resulting
properties map. -/
theorem onPropertyStatus_reconciliation (m : ThingModel) (data : Obj)
    (hnd : (keysOf data).Nodup) :
    (∀ k v, (k, v) ∈ data → hasKey m.propertyDescriptions k = true →
      v ≠ JSVal.undef → v ≠ JSVal.vnull →
      getKey (onPropertyStatus m data).1.properties k = some v) ∧
    (∀ k, (¬ ∃ v, (k, v) ∈ data ∧ hasKey m.propertyDescriptions k = true ∧
        v ≠ JSVal.undef ∧ v ≠ JSVal.vnull) →
      getKey (onPropertyStatus m data).1.properties k = getKey m.properties k) ∧
    (onPropertyStatus m data).2 =
      [(EventKind.propertyStatus, (onPropertyStatus m data).1.properties)] := by
  refine ⟨?_, ?_, rfl⟩
  · intro k v hm hk h1 h2
    have hgood : goodEntry m.propertyDescriptions (k, v) = true := by
      simp [goodEntry, hk, (goodVal_iff v).mpr ⟨h1, h2⟩]
    show getKey (statusFold m.propertyDescriptions m.properties data) k = some v
    rw [statusFold_eq_applyEntries]
    exact getKey_applyEntries_of_mem_nodup _ _ _ _
      (keysOf_filter_nodup _ _ hnd) (List.mem_filter.mpr ⟨hm, hgood⟩)
  · intro k hno
    show getKey (statusFold m.propertyDescriptions m.properties data) k =
      getKey m.properties k
    rw [statusFold_eq_applyEntries]
    apply getKey_applyEntries_of_not_mem
    intro hmem
    simp [keysOf] at hmem
    obtain ⟨v, hd, hg⟩ := hmem
    simp [goodEntry] at hg
    exact hno ⟨v, hd, hg.1, ((goodVal_iff v).mp hg.2).1, ((goodVal_iff v).mp hg.2).2⟩

/-- Witness for C1 at the sample model and status map. -/
theorem onPropertyStatus_reconciliation_witness :
    (keysOf sampleStatus).Nodup ∧
    ((∀ k v, (k, v) ∈ sampleStatus →
        hasKey sampleModel.propertyDescriptions k = true →
        v ≠ JSVal.undef → v ≠ JSVal.vnull →
        getKey (onPropertyStatus sampleModel sampleStatus).1.properties k = some v) ∧
      (∀ k, (¬ ∃ v, (k, v) ∈ sampleStatus ∧
          hasKey sampleModel.propertyDescriptions k = true ∧
          v ≠ JSVal.undef ∧ v ≠ JSVal.vnull) →
        getKey (onPropertyStatus sampleModel sampleStatus).1.properties k =
          getKey sampleModel.properties k) ∧
      (onPropertyStatus sampleModel sampleStatus).2 =
        [(EventKind.propertyStatus,
          (onPropertyStatus sampleModel sampleStatus).1.properties)]) :=
  ⟨by decide, onPropertyStatus_reconciliation sampleModel sampleStatus (by decide)⟩

/-! ## C7 — reconciliation is idempotent -/

/-- C7: applying the same status payload twice yields the same properties
map as applying it once, and both applications fire PROPERTY_STATUS once
each with identical content. -/
theorem onPropertyStatus_idempotent (m : ThingModel) (data : Obj) :
    (onPropertyStatus (onPropertyStatus m data).1 data).1.properties =
      (onPropertyStatus m data).1.properties ∧
    (onPropertyStatus m data).2 =
      [(EventKind.propertyStatus, (onPropertyStatus m data).1.properties)] ∧
    (onPropertyStatus (onPropertyStatus m data).1 data).2 =
      (onPropertyStatus m data).2 := by
  have key : statusFold m.propertyDescriptions
      (statusFold m.propertyDescriptions m.properties data) data =
      statusFold m.propertyDescriptions m.properties data := by
    rw [statusFold_eq_applyEntries, statusFold_eq_applyEntries, applyEntries_idem]
  refine ⟨?_, rfl, ?_⟩
  · show statusFold m.propertyDescriptions
      (statusFold m.propertyDescriptions m.properties data) data =
      statusFold m.propertyDescriptions m.properties data
    exact key
  · show [(EventKind.propertyStatus, statusFold m.propertyDescriptions
      (statusFold m.propertyDescriptions m.properties data) data)] =
      [(EventKind.propertyStatus, statusFold m.propertyDescriptions m.properties data)]
    rw [key]

/-! ## C2 — unknown property name rejects without a network call -/

/-- C2: for a name absent from the property schema, `setProperty` returns
a rejected result whose message contains the name and issues no network
request at all. -/
theorem setProperty_unknown_name (m : ThingModel) (name : String) (value : JSVal)
    (h : hasKey m.propertyDescriptions name = false) :
    ∃ a b, setProperty m name value = SetPropertyCall.rejected (a ++ name ++ b) ∧
      networkCalls (setProperty m name value) = 0 := by
  have hg : getKey m.propertyDescriptions name = none := by
    cases hgk : getKey m.propertyDescriptions name with
    | none => rfl
    | some p => rw [hasKey, hgk] at h; simp at h
  refine ⟨"Unavailable property name ", "", ?_, ?_⟩
  · simp [setProperty, hg]
  · simp [setProperty, hg, networkCalls]

/-- Witness for C2: `setProperty("missing", 1)` on the sample model. -/
theorem setProperty_unknown_name_witness :
    hasKey sampleModel.propertyDescriptions "missing" = false ∧
    ∃ a b, setProperty sampleModel "missing" (JSVal.num (mkRat 1 1)) =
        SetPropertyCall.rejected (a ++ "missing" ++ b) ∧
      networkCalls (setProperty sampleModel "missing" (JSVal.num (mkRat 1 1))) = 0 :=
  ⟨by decide,
    setProperty_unknown_name sampleModel "missing" (JSVal.num (mkRat 1 1)) (by decide)⟩

/-! ## C4 — schema-directed coercion before the remote write -/

/-- C4: for a name present in the schema, `setProperty` issues exactly one
`PUT` whose payload is the single binding of that name to the value
coerced by the declared type: `number` parses a float, `integer` parses
an integer, `boolean` applies truthiness, and any other declared type
passes the value through unchanged. -/
theorem setProperty_known_name (m : ThingModel) (name : String) (value : JSVal)
    (property : Property)
    (h : getKey m.propertyDescriptions name = some property) :
    setProperty m name value =
      SetPropertyCall.putRequest property.href
        [(name, coerceValue property.type value)] ∧
    (property.type = some "number" →
      coerceValue property.type value = parseFloatVal value) ∧
    (property.type = some "integer" →
      coerceValue property.type value = parseIntVal value) ∧
    (property.type = some "boolean" →
      coerceValue property.type value = JSVal.bool (truthy value)) ∧
    (property.type ≠ some "number" → property.type ≠ some "integer" →
      property.type ≠ some "boolean" →
      coerceValue property.type value = value) := by
  refine ⟨by simp [setProperty, h], ?_, ?_, ?_, ?_⟩
  · intro ht; simp [coerceValue, ht]
  · intro ht; simp [coerceValue, ht]
  · intro ht; simp [coerceValue, ht]
  · intro h1 h2 h3; simp [coerceValue, h1, h2, h3]

/-- Witness for C4: `setProperty("level", "3.5")` against the `number`
descriptor sends `{level: 3.5}`, not the raw string. -/
theorem setProperty_known_name_witness :
    getKey sampleModel.propertyDescriptions "level" =
      some { type := some "number", href := "/things/lamp/properties/level" } ∧
    (setProperty sampleModel "level" (JSVal.str "3.5") =
      SetPropertyCall.putRequest
        (Property.href { type := some "number", href := "/things/lamp/properties/level" })
        [("level", coerceValue (some "number") (JSVal.str "3.5"))] ∧
      (some "number" = some "number" →
        coerceValue (some "number") (JSVal.str "3.5") =
          parseFloatVal (JSVal.str "3.5")) ∧
      (some "number" = some "integer" →
        coerceValue (some "number") (JSVal.str "3.5") =
          parseIntVal (JSVal.str "3.5")) ∧
      (some "number" = some "boolean" →
        coerceValue (some "number") (JSVal.str "3.5") =
          JSVal.bool (truthy (JSVal.str "3.5"))) ∧
      (some "number" ≠ some "number" → some "number" ≠ some "integer" →
        some "number" ≠ some "boolean" →
        coerceValue (some "number") (JSVal.str "3.5") = JSVal.str "3.5")) ∧
    setProperty sampleModel "level" (JSVal.str "3.5") =
      SetPropertyCall.putRequest "/things/lamp/properties/level"
        [("level", JSVal.num (mkRat 7 2))] :=
  ⟨by decide,
    setProperty_known_name sampleModel "level" (JSVal.str "3.5")
      { type := some "number", href := "/things/lamp/properties/level" } (by decide),
    rfl⟩

/-! ## Keys utilities -/

theorem keysOf_cons {α : Type} (x : String × α) (t : List (String × α)) :
    keysOf (x :: t) = x.1 :: keysOf t := rfl

theorem keysOf_append {α : Type} (a b : List (String × α)) :
    keysOf (a ++ b) = keysOf a ++ keysOf b :=
  List.map_append _ _ _

theorem getKey_eq_none_of_not_mem {α : Type} (l : List (String × α)) (k : String)
    (h : k ∉ keysOf l) : getKey l k = none := by
  cases hgk : getKey l k with
  | none => rfl
  | some v =>
    exact absurd ((hasKey_iff_mem l k).mp (by simp [hasKey, hgk])) h

/-! ## C3 — properties only ever hold schema keys -/

theorem statusFold_keys (schema : List (String × Property)) (data props : Obj)
    (k : String) (h : k ∈ keysOf (statusFold schema props data)) :
    k ∈ keysOf props ∨ hasKey schema k = true := by
  rw [statusFold_eq_applyEntries] at h
  rcases mem_keysOf_applyEntries _ _ _ h with h | h
  · exact Or.inl h
  · simp [keysOf] at h
    obtain ⟨v, hvd, hg⟩ := h
    simp [goodEntry] at hg
    exact Or.inr hg.1

/-- C3: the invariant "every key of `properties` is a schema key" holds
after construction and is preserved by every operation that touches the
cache — stream-delivered `propertyStatus` messages, the fold-in of a
`setProperty` response, and the merged batch of `updateProperties` reads —
and a name unknown to the schema is never bound in `properties`
afterwards. -/
theorem propertiesInSchema_invariant (m : ThingModel) (data json : Obj)
    (responses : List Obj) (desc : Description)
    (hinv : ∀ k ∈ keysOf m.properties, hasKey m.propertyDescriptions k = true) :
    (∀ k ∈ keysOf (onPropertyStatus m data).1.properties,
      hasKey (onPropertyStatus m data).1.propertyDescriptions k = true) ∧
    (∀ k ∈ keysOf (applySetPropertyResponse m json).1.properties,
      hasKey (applySetPropertyResponse m json).1.propertyDescriptions k = true) ∧
    (∀ k ∈ keysOf (applyUpdatePropertiesResponses m responses).1.properties,
      hasKey (applyUpdatePropertiesResponses m responses).1.propertyDescriptions k = true) ∧
    (∀ k, hasKey m.propertyDescriptions k = false →
      getKey (onPropertyStatus m data).1.properties k = none) ∧
    (∀ k ∈ keysOf (constructThing desc).properties,
      hasKey (constructThing desc).propertyDescriptions k = true) := by
  have base : ∀ d : Obj, ∀ k ∈ keysOf (statusFold m.propertyDescriptions m.properties d),
      hasKey m.propertyDescriptions k = true := by
    intro d k hk
    rcases statusFold_keys m.propertyDescriptions d m.properties k hk with h | h
    · exact hinv k h
    · exact h
  refine ⟨base data, base json, base (mergeResponses responses), ?_, ?_⟩
  · intro k hk
    apply getKey_eq_none_of_not_mem
    intro hmem
    have := base data k hmem
    rw [hk] at this
    exact Bool.false_ne_true this
  · intro k hk
    simp [constructThing, keysOf] at hk

/-- Witness for C3 at the sample model. -/
theorem propertiesInSchema_invariant_witness :
    (∀ k ∈ keysOf sampleModel.properties,
      hasKey sampleModel.propertyDescriptions k = true) ∧
    ((∀ k ∈ keysOf (onPropertyStatus sampleModel sampleStatus).1.properties,
      hasKey (onPropertyStatus sampleModel sampleStatus).1.propertyDescriptions k = true) ∧
    (∀ k ∈ keysOf (applySetPropertyResponse sampleModel
        [("level", JSVal.num (mkRat 7 2))]).1.properties,
      hasKey (applySetPropertyResponse sampleModel
        [("level", JSVal.num (mkRat 7 2))]).1.propertyDescriptions k = true) ∧
    (∀ k ∈ keysOf (applyUpdatePropertiesResponses sampleModel
        [[("on", JSVal.bool false)], [("ghost", JSVal.num (mkRat 1 1))]]).1.properties,
      hasKey (applyUpdatePropertiesResponses sampleModel
        [[("on", JSVal.bool false)], [("ghost", JSVal.num (mkRat 1 1))]]).1.propertyDescriptions
        k = true) ∧
    (∀ k, hasKey sampleModel.propertyDescriptions k = false →
      getKey (onPropertyStatus sampleModel sampleStatus).1.properties k = none) ∧
    (∀ k ∈ keysOf (constructThing
        { name := "lamp", type := "onOffLight", href := some "/things/lamp",
          links := [("events", "/things/lamp/events")],
          properties := sampleSchema,
          events := [("overheated", JSVal.obj [])] }).properties,
      hasKey (constructThing
        { name := "lamp", type := "onOffLight", href := some "/things/lamp",
          links := [("events", "/things/lamp/events")],
          properties := sampleSchema,
          events := [("overheated", JSVal.obj [])] }).propertyDescriptions k = true)) :=
  ⟨by decide,
    propertiesInSchema_invariant sampleModel sampleStatus
      [("level", JSVal.num (mkRat 7 2))]
      [[("on", JSVal.bool false)], [("ghost", JSVal.num (mkRat 1 1))]]
      { name := "lamp", type := "onOffLight", href := some "/things/lamp",
        links := [("events", "/things/lamp/events")],
        properties := sampleSchema,
        events := [("overheated", JSVal.obj [])] }
      (by decide)⟩

/-! ## C5 — the event delta and the appended history -/

theorem eventFold_append (schema : List (String × JSVal)) (data : Obj) :
    ∀ delta : Obj, ∀ pushed : List Obj, (keysOf data).Nodup →
      (∀ j, j ∈ keysOf data → j ∉ keysOf delta) →
      eventFold schema data (delta, pushed) =
        (delta ++ data.filter (fun kv => hasKey schema kv.1),
         pushed ++ (data.filter (fun kv => hasKey schema kv.1)).map (fun kv => [kv])) := by
  induction data with
  | nil => intro delta pushed _ _; simp [eventFold]
  | cons hd t ih =>
    obtain ⟨k, v⟩ := hd
    intro delta pushed hnd hdisj
    rw [keysOf_cons] at hnd
    obtain ⟨hkt, hnd'⟩ := List.nodup_cons.mp hnd
    have hkdelta : k ∉ keysOf delta :=
      hdisj k (by rw [keysOf_cons]; exact List.mem_cons_self _ _)
    by_cases hk : hasKey schema k = true
    · have hdisj' : ∀ j, j ∈ keysOf t → j ∉ keysOf (delta ++ [(k, v)]) := by
        intro j hj hmem
        rw [keysOf_append] at hmem
        rcases List.mem_append.mp hmem with hcase | hcase
        · exact hdisj j (by rw [keysOf_cons]; exact List.mem_cons_of_mem _ hj) hcase
        · have hjk : j = k := by simpa [keysOf] using hcase
          exact hkt (hjk ▸ hj)
      rw [eventFold, if_pos hk, setKey_append_of_not_mem delta k v hkdelta,
        ih _ _ hnd' hdisj']
      simp [List.filter_cons, hk, List.append_assoc]
    · have hdisj' : ∀ j, j ∈ keysOf t → j ∉ keysOf delta := fun j hj =>
        hdisj j (by rw [keysOf_cons]; exact List.mem_cons_of_mem _ hj)
      rw [eventFold, if_neg hk, ih _ _ hnd' hdisj']
      simp [List.filter_cons, hk]

/-- C5: `onEvent` emits EVENT_OCCURRED once with exactly the subset of the
incoming map whose keys are in the event schema (the delta, not the
history), and appends to `events` one `{key: data}` entry per such key,
in encounter order. -/
theorem onEvent_delta (m : ThingModel) (data : Obj)
    (hnd : (keysOf data).Nodup) :
    (onEvent m data).2 =
      [(EventKind.eventOccurred,
        data.filter (fun kv => hasKey m.eventDescriptions kv.1))] ∧
    (onEvent m data).1.events =
      m.events ++ (data.filter (fun kv => hasKey m.eventDescriptions kv.1)).map
        (fun kv => [kv]) := by
  have h := eventFold_append m.eventDescriptions data [] [] hnd
    (by intro j _; simp [keysOf])
  constructor
  · show [(EventKind.eventOccurred, (eventFold m.eventDescriptions data ([], [])).1)] = _
    rw [h]
    simp
  · show m.events ++ (eventFold m.eventDescriptions data ([], [])).2 = _
    rw [h]
    simp

/-- Witness for C5: an event payload with one schema key and one unknown
key against the sample model. -/
theorem onEvent_delta_witness :
    (keysOf [("overheated", JSVal.num (mkRat 102 1)), ("unknown", JSVal.num (mkRat 1 1))]).Nodup ∧
    ((onEvent sampleModel
        [("overheated", JSVal.num (mkRat 102 1)), ("unknown", JSVal.num (mkRat 1 1))]).2 =
      [(EventKind.eventOccurred,
        [("overheated", JSVal.num (mkRat 102 1)),
          ("unknown", JSVal.num (mkRat 1 1))].filter
          (fun kv => hasKey sampleModel.eventDescriptions kv.1))] ∧
    (onEvent sampleModel
        [("overheated", JSVal.num (mkRat 102 1)), ("unknown", JSVal.num (mkRat 1 1))]).1.events =
      sampleModel.events ++
        ([("overheated", JSVal.num (mkRat 102 1)),
          ("unknown", JSVal.num (mkRat 1 1))].filter
          (fun kv => hasKey sampleModel.eventDescriptions kv.1)).map (fun kv => [kv])) :=
  ⟨by decide,
    onEvent_delta sampleModel
      [("overheated", JSVal.num (mkRat 102 1)), ("unknown", JSVal.num (mkRat 1 1))]
      (by decide)⟩

/-! ## C6 — the events invariant and updateEvents' wholesale replacement -/

/-- The invariant the claim asserts: keys of every entry of `events` are
event-schema keys. -/
def EventsInSchema (m : ThingModel) : Prop :=
  ∀ e ∈ m.events, ∀ k ∈ keysOf e, hasKey m.eventDescriptions k = true

/-- C6 counterexample: `updateEvents` assigns the parsed response to
`this.events` verbatim, so a response entry with a key outside the event
schema lands in `events` and the invariant fails. -/
theorem updateEvents_breaks_invariant :
    EventsInSchema sampleModel ∧
    ¬ EventsInSchema (updateEventsApply sampleModel [[("powerSurge", JSVal.obj [])]]) := by
  constructor
  · intro e he
    simp [sampleModel] at he
  · intro h
    have := h [("powerSurge", JSVal.obj [])] (by simp [updateEventsApply])
      "powerSurge" (by simp [keysOf])
    simp [sampleModel, sampleSchema, hasKey, getKey] at this

theorem eventFold_pushed_keys (schema : List (String × JSVal)) (data : Obj) :
    ∀ delta : Obj, ∀ pushed : List Obj,
      (∀ e ∈ pushed, ∀ k ∈ keysOf e, hasKey schema k = true) →
      ∀ e ∈ (eventFold schema data (delta, pushed)).2, ∀ k ∈ keysOf e,
        hasKey schema k = true := by
  induction data with
  | nil => intro delta pushed h; simpa [eventFold] using h
  | cons hd t ih =>
    obtain ⟨k, v⟩ := hd
    intro delta pushed h
    by_cases hk : hasKey schema k = true
    · rw [eventFold, if_pos hk]
      apply ih
      intro e he
      rcases List.mem_append.mp he with he | he
      · exact h e he
      · simp at he
        subst he
        intro j hj
        have hjk : j = k := by simpa [keysOf] using hj
        rw [hjk]
        exact hk
    · rw [eventFold, if_neg hk]
      exact ih _ _ h

/-- C6 amended: the invariant is established at construction and preserved
by `onEvent`; `updateEvents`, however, replaces the list with the server
response verbatim, so after it the invariant holds exactly when every
response entry's keys are in the event schema. -/
theorem eventsInSchema_preservation (m : ThingModel) (data : Obj)
    (response : List Obj) (desc : Description)
    (hinv : EventsInSchema m) :
    EventsInSchema (onEvent m data).1 ∧
    EventsInSchema (constructThing desc) ∧
    (updateEventsApply m response).events = response ∧
    ((∀ e ∈ response, ∀ k ∈ keysOf e, hasKey m.eventDescriptions k = true) →
      EventsInSchema (updateEventsApply m response)) := by
  refine ⟨?_, ?_, rfl, ?_⟩
  · intro e he
    rcases List.mem_append.mp he with he | he
    · exact hinv e he
    · exact eventFold_pushed_keys m.eventDescriptions data [] [] (by simp) e he
  · intro e he
    simp [constructThing] at he
  · intro h
    exact h

/-- Witness for C6's amended statement at the sample model. -/
theorem eventsInSchema_preservation_witness :
    EventsInSchema sampleModel ∧
    (EventsInSchema (onEvent sampleModel
        [("overheated", JSVal.num (mkRat 102 1)), ("unknown", JSVal.num (mkRat 1 1))]).1 ∧
    EventsInSchema (constructThing
      { name := "lamp", type := "onOffLight", href := some "/things/lamp",
        links := [("events", "/things/lamp/events")],
        properties := sampleSchema,
        events := [("overheated", JSVal.obj [])] }) ∧
    (updateEventsApply sampleModel [[("overheated", JSVal.obj [])]]).events =
      [[("overheated", JSVal.obj [])]] ∧
    ((∀ e ∈ [[("overheated", JSVal.obj [])]], ∀ k ∈ keysOf e,
        hasKey sampleModel.eventDescriptions k = true) →
      EventsInSchema (updateEventsApply sampleModel [[("overheated", JSVal.obj [])]]))) :=
  ⟨by intro e he; simp [sampleModel] at he,
    eventsInSchema_preservation sampleModel
      [("overheated", JSVal.num (mkRat 102 1)), ("unknown", JSVal.num (mkRat 1 1))]
      [[("overheated", JSVal.obj [])]]
      { name := "lamp", type := "onOffLight", href := some "/things/lamp",
        links := [("events", "/things/lamp/events")],
        properties := sampleSchema,
        events := [("overheated", JSVal.obj [])] }
      (by intro e he; simp [sampleModel] at he)⟩

/-! ## C8 — removeThing settles its DELETE -/

/-- C8: `removeThing` issues a `DELETE` of the device resource; on an ok
response it closes the stream, releases the subscribers and resolves; on
a non-ok response it rejects with a message carrying the remote status
text and leaves every bit of model state unchanged (stream open,
subscribers registered); on a transport failure it rejects with the fixed
error message, likewise leaving state unchanged. -/
theorem removeThing_spec (m : ThingModel) (w : Bool) (st e : String)
    (h : m.ws = some w) :
    removeRequest m = ("DELETE", m.href) ∧
    removeThing m (FetchOutcome.response true st) =
      some ({ m with ws := some false, subscribers := [] }, RemoveResult.resolved) ∧
    (∃ a b, removeThing m (FetchOutcome.response false st) =
      some (m, RemoveResult.rejected (a ++ st ++ b))) ∧
    removeThing m (FetchOutcome.failure e) =
      some (m, RemoveResult.rejected "Error occurred while removing thing") := by
  refine ⟨rfl, ?_, ⟨"Failed removing thing ", "", ?_⟩, rfl⟩
  · simp [removeThing, cleanup, h]
  · simp [removeThing]

/-- Witness for C8 at the sample model. -/
theorem removeThing_spec_witness :
    sampleModel.ws = some true ∧
    (removeRequest sampleModel = ("DELETE", sampleModel.href) ∧
    removeThing sampleModel (FetchOutcome.response true "Internal Server Error") =
      some ({ sampleModel with ws := some false, subscribers := [] },
        RemoveResult.resolved) ∧
    (∃ a b, removeThing sampleModel (FetchOutcome.response false "Internal Server Error") =
      some (sampleModel, RemoveResult.rejected (a ++ "Internal Server Error" ++ b))) ∧
    removeThing sampleModel (FetchOutcome.failure "network down") =
      some (sampleModel, RemoveResult.rejected "Error occurred while removing thing")) :=
  ⟨rfl, removeThing_spec sampleModel true "Internal Server Error" "network down" rfl⟩

/-! ## C9 — stream connections per instance -/

/-- A description with no reachable resource address. -/
def headlessDescription : Description :=
  { name := "adapter"
    type := "thing"
    href := none
    links := [("events", "/things/adapter/events")]
    properties := []
    events := [] }

/-- C9 counterexample: a model constructed from a description without a
resource address has no stream connection at all — `initWebsocket`
returns before creating one — and its teardown faults on the missing
socket instead of closing one; so "exactly one stream connection per
instance, including for a model with no reachable address" is false. -/
theorem constructThing_no_href_no_stream :
    (constructThing headlessDescription).ws = none ∧
    cleanup (constructThing headlessDescription) = none :=
  ⟨rfl, rfl⟩

/-- C9 amended: at most one stream connection per instance — opened at
construction exactly when the description carries a resource address, and
closed by teardown; a model built without an address has none, and its
teardown faults instead of closing anything. -/
theorem stream_lifecycle (desc : Description) :
    (constructThing desc).ws = (if desc.href.isSome then some true else none) ∧
    cleanup (constructThing desc) =
      (if desc.href.isSome then
        some { constructThing desc with ws := some false, subscribers := [] }
      else none) := by
  constructor
  · rfl
  · by_cases h : desc.href.isSome <;> simp [cleanup, constructThing, h]

/-! ## C10 — subscribe's immediate replay -/

/-- C10: subscribing a handler for PROPERTY_STATUS registers it and
synchronously invokes it exactly once with the current full properties
map; subscribing for EVENT_OCCURRED registers it without invoking it; in
both cases nothing in the model changes except the subscriber registry. -/
theorem subscribe_spec (m : ThingModel) (h : ℕ) :
    subscribe m EventKind.propertyStatus h =
      ({ m with subscribers := m.subscribers ++ [(EventKind.propertyStatus, h)] },
        [(h, m.properties)]) ∧
    subscribe m EventKind.eventOccurred h =
      ({ m with subscribers := m.subscribers ++ [(EventKind.eventOccurred, h)] }, []) :=
  ⟨rfl, rfl⟩
